import Mathlib

/-!
Verification of the golem-llm repository's natural-language specification
against its code: the JavaScript builtin modules under `src/exec` (readline,
fs) and the durable asynchronous operation core described by the design
specification (operation state machine, request translation, result assembly,
pagination).
-/

/-! ## JavaScript readline builtin (`src/exec/exec/src/javascript/builtin/readline.js`) -/

/-- JS `String.prototype.indexOf` specialised to a single character, over the
string's character list: the index of the first occurrence of `c` in `s`, or
`none` when absent (JS returns `-1`). Embeds `this.contents.indexOf("\n")`
from `readline.js`. -/
def jsIndexOfChar : List Char → Char → Option Nat
  | [], _ => none
  | a :: rest, c => if a = c then some 0 else (jsIndexOfChar rest c).map (· + 1)

/-- The `Stdin` class of `readline.js`: a mutable buffer of remaining input
contents, here a character list. -/
structure Stdin where
  contents : List Char
deriving DecidableEq, Repr

/-- `Stdin.readLine` from `readline.js` lines 11–26: returns `null` when the
contents are exhausted; otherwise the text before the first `"\n"` (the whole
contents when there is no newline), consuming it and the newline from the
buffer. The mutation of `this.contents` is modelled by returning the updated
`Stdin` alongside the produced line. -/
def Stdin.readLine (st : Stdin) : Option (List Char) × Stdin :=
  if st.contents.length = 0 then
    (none, st)
  else
    match jsIndexOfChar st.contents '\n' with
    | none => (some st.contents, ⟨[]⟩)
    | some index => (some (st.contents.take index), ⟨st.contents.drop (index + 1)⟩)

/-- The lines `readLine` is expected to enumerate: the maximal segments before
each newline, with the trailing segment kept only when nonempty (matching the
emptiness check at the top of `readLine`). -/
def jsLines (s : List Char) : List (List Char) :=
  if h : s = [] then []
  else
    match jsIndexOfChar s '\n' with
    | none => [s]
    | some i => s.take i :: jsLines (s.drop (i + 1))
termination_by s.length
decreasing_by
  simp only [List.length_drop]
  have hpos : 0 < s.length := List.length_pos.mpr h
  omega

/-- Repeatedly call `readLine`, collecting the produced lines until it returns
`null` (fuel-bounded; with fuel above the contents length the fuel never runs
out). Returns the lines and the final `Stdin`. -/
def drain : Nat → Stdin → List (List Char) × Stdin
  | 0, st => ([], st)
  | fuel + 1, st =>
    match st.readLine with
    | (none, _) => ([], st)
    | (some line, st2) =>
      let r := drain fuel st2
      (line :: r.1, r.2)

theorem jsIndexOfChar_ne_nil {s : List Char} {c : Char} {i : Nat}
    (h : jsIndexOfChar s c = some i) : s ≠ [] := by
  intro hnil
  rw [hnil] at h
  simp [jsIndexOfChar] at h

theorem readLine_empty (st : Stdin) (h : st.contents = []) :
    st.readLine = (none, st) := by
  simp [Stdin.readLine, h]

theorem readLine_no_newline (st : Stdin) (h : st.contents ≠ [])
    (hix : jsIndexOfChar st.contents '\n' = none) :
    st.readLine = (some st.contents, ⟨[]⟩) := by
  have hlen : ¬ st.contents.length = 0 := by
    simpa [List.length_eq_zero] using h
  simp [Stdin.readLine, hlen, hix]

theorem readLine_newline (st : Stdin) (i : Nat)
    (hix : jsIndexOfChar st.contents '\n' = some i) :
    st.readLine = (some (st.contents.take i), ⟨st.contents.drop (i + 1)⟩) := by
  have hlen : ¬ st.contents.length = 0 := by
    simpa [List.length_eq_zero] using jsIndexOfChar_ne_nil hix
  simp [Stdin.readLine, hlen, hix]

theorem readLine_none_iff (st : Stdin) : st.readLine.1 = none ↔ st.contents = [] := by
  by_cases h : st.contents = []
  · simp [readLine_empty st h, h]
  · cases hix : jsIndexOfChar st.contents '\n' with
    | none => simp [readLine_no_newline st h hix, h]
    | some i => simp [readLine_newline st i hix, h]

theorem jsLines_nil : jsLines [] = [] := by
  unfold jsLines
  simp

theorem jsLines_no_newline (s : List Char) (h : s ≠ [])
    (hix : jsIndexOfChar s '\n' = none) : jsLines s = [s] := by
  unfold jsLines
  simp [h, hix]

theorem jsLines_newline (s : List Char) (i : Nat)
    (hix : jsIndexOfChar s '\n' = some i) :
    jsLines s = s.take i :: jsLines (s.drop (i + 1)) := by
  rw [jsLines]
  simp [jsIndexOfChar_ne_nil hix, hix]

theorem drain_spec : ∀ (n : Nat) (st : Stdin), st.contents.length < n →
    (drain n st).1 = jsLines st.contents ∧ (drain n st).2.contents = [] := by
  intro n
  induction n with
  | zero => intro st h; omega
  | succ n ih =>
    intro st h
    by_cases hc : st.contents = []
    · simp [drain, readLine_empty st hc, hc, jsLines_nil]
    · cases hix : jsIndexOfChar st.contents '\n' with
      | none =>
        have hpos : 0 < st.contents.length := List.length_pos.mpr hc
        have hn : (Stdin.mk []).contents.length < n := by
          simp only [List.length_nil]
          omega
        simp [drain, readLine_no_newline st hc hix, jsLines_no_newline st.contents hc hix,
          jsLines_nil, (ih ⟨[]⟩ hn).1, (ih ⟨[]⟩ hn).2]
      | some i =>
        have hpos : 0 < st.contents.length := List.length_pos.mpr hc
        have hlt : (st.contents.drop (i + 1)).length < n := by
          simp only [List.length_drop]
          omega
        have hrec := ih ⟨st.contents.drop (i + 1)⟩ hlt
        simp [drain, readLine_newline st i hix, jsLines_newline st.contents i hix,
          hrec.1, hrec.2]

/-- C9: `Stdin.readLine` returns `null` exactly when the remaining contents are
empty; otherwise it returns the text before the first `"\n"` (the whole
contents when no newline is present) and the remaining contents become the
suffix after that newline; iterating `readLine` enumerates the lines of the
original contents in order and eventually returns `null`. -/
theorem stdin_readLine_spec (st : Stdin) :
    (st.readLine.1 = none ↔ st.contents = []) ∧
    (st.contents ≠ [] → jsIndexOfChar st.contents '\n' = none →
      st.readLine = (some st.contents, ⟨[]⟩)) ∧
    (∀ i, jsIndexOfChar st.contents '\n' = some i →
      st.readLine = (some (st.contents.take i), ⟨st.contents.drop (i + 1)⟩)) ∧
    ((drain (st.contents.length + 1) st).1 = jsLines st.contents ∧
      ((drain (st.contents.length + 1) st).2).readLine.1 = none) := by
  refine ⟨readLine_none_iff st, readLine_no_newline st, fun i => readLine_newline st i, ?_, ?_⟩
  · exact (drain_spec (st.contents.length + 1) st (by omega)).1
  · rw [readLine_none_iff]
    exact (drain_spec (st.contents.length + 1) st (by omega)).2

/-- Witness for C9: on contents `"ab\ncd"` the first `readLine` yields `"ab"`
and leaves `"cd"` in the buffer. -/
theorem stdin_readLine_spec_witness :
    (Stdin.mk ("ab\ncd".data)).readLine =
      (some (("ab\ncd".data).take 2), ⟨("ab\ncd".data).drop 3⟩) :=
  (stdin_readLine_spec ⟨"ab\ncd".data⟩).2.2.1 2 (by decide)

/-! ## JavaScript fs builtin, `readFile` (`src/unnamed/part_002`) -/

/-- Result of a native host read call (`read_file` / `read_file_with_encoding`
from `__golem_exec_js_builtin/fs_native`): in the JS source these return a
`[contents, error]` pair of which exactly one is defined. -/
inductive NativeRead (α : Type) where
  | ok (contents : α)
  | err (e : String)
deriving DecidableEq, Repr

/-- A JS value passed as the first argument of the `readFile` callback: a
`Buffer` (byte list), a decoded string, or `undefined`. -/
inductive CallbackArg where
  | buf (bytes : List Nat)
  | str (s : String)
  | undef
deriving DecidableEq, Repr

/-- One invocation of the `readFile` callback: its first argument and its
second argument (`none` models an absent / `undefined` second argument). -/
structure CallbackCall where
  arg1 : CallbackArg
  arg2 : Option String
deriving DecidableEq, Repr

/-- The JS truthiness test `optionsOrCallback.encoding && optionsOrCallback.encoding !== ''`
from `readFile`: an absent encoding and the empty string are both falsy. -/
def encodingGiven : Option String → Bool
  | none => false
  | some e => e ≠ ""

/-- Shallow embedding of `readFile` from `src/unnamed/part_002` lines 105–129.
The native host reads are parameters: `readPlain` is the outcome of
`read_file(path)` and `readEnc e` the outcome of
`read_file_with_encoding(path, e)`. The argument normalisation (callback in
the options position, a string as options) leaves only the optional encoding,
modelled by `enc`. The value returned is the sequence of callback invocations
the function performs; `Buffer.from(contents)` is modelled as the byte list
itself. -/
def readFile (enc : Option String) (readPlain : NativeRead (List Nat))
    (readEnc : String → NativeRead String) : List CallbackCall :=
  if encodingGiven enc then
    match enc with
    | none => []
    | some e =>
      match readEnc e with
      | .ok contents => [⟨.str contents, none⟩]
      | .err er => [⟨.undef, some er⟩]
  else
    match readPlain with
    | .ok contents => [⟨.buf contents, none⟩]
    | .err er => [⟨.undef, some er⟩]

/-- C10: `readFile` invokes its callback exactly once; on success the contents
are the FIRST callback argument (a `Buffer` without an encoding, a string with
one) and there is no second argument, while on failure the first argument is
`undefined` and the second is the native error — the data-first shape, not the
Node.js error-first convention. -/
theorem readFile_callback_spec (enc : Option String) (readPlain : NativeRead (List Nat))
    (readEnc : String → NativeRead String) :
    (readFile enc readPlain readEnc).length = 1 ∧
    (∀ e s, enc = some e → e ≠ "" → readEnc e = .ok s →
      readFile enc readPlain readEnc = [⟨.str s, none⟩]) ∧
    (∀ e msg, enc = some e → e ≠ "" → readEnc e = .err msg →
      readFile enc readPlain readEnc = [⟨.undef, some msg⟩]) ∧
    (∀ bytes, encodingGiven enc = false → readPlain = .ok bytes →
      readFile enc readPlain readEnc = [⟨.buf bytes, none⟩]) ∧
    (∀ msg, encodingGiven enc = false → readPlain = .err msg →
      readFile enc readPlain readEnc = [⟨.undef, some msg⟩]) := by
  refine ⟨?_, ?_, ?_, ?_, ?_⟩
  · unfold readFile
    by_cases hg : encodingGiven enc
    · cases enc with
      | none => simp [encodingGiven] at hg
      | some e => cases h : readEnc e <;> simp [hg, h]
    · cases readPlain <;> simp [hg]
  · intro e s he hne hr
    subst he
    simp [readFile, encodingGiven, hne, hr]
  · intro e msg he hne hr
    subst he
    simp [readFile, encodingGiven, hne, hr]
  · intro bytes hg hr
    simp [readFile, hg, hr]
  · intro msg hg hr
    simp [readFile, hg, hr]

/-- Witness for C10: with no encoding and a successful native read of bytes
`[104, 105]`, the callback is invoked once with the buffer first and no error
argument. -/
theorem readFile_callback_spec_witness :
    readFile none (NativeRead.ok [104, 105]) (fun _ => NativeRead.err "unused") =
      [⟨CallbackArg.buf [104, 105], none⟩] :=
  (readFile_callback_spec none (NativeRead.ok [104, 105])
      (fun _ => NativeRead.err "unused")).2.2.2.1 [104, 105] (by decide) rfl

/-! ## Durable operation core (spec-modelled)

The Rust core implementing the durable asynchronous operation abstraction
(operation state machine, request translation, result assembly, pagination)
is not part of the source tree here; the definitions below are modelled from
the design specification. -/

/-- Modelled from the spec: the lifecycle phases of an Operation (§3 data
model); the implementing Rust core is not under the source tree. -/
inductive Phase where
  | Created
  | Submitted
  | Polling
  | Streaming
  | Succeeded
  | Failed
  | Cancelled
deriving DecidableEq, Repr

/-- Modelled from the spec: the error taxonomy of §7. -/
inductive ErrorClass where
  | ValidationError
  | UnsupportedFeature
  | TransientProviderError
  | TerminalProviderError
  | ExhaustedRetries
  | CheckpointCorruption
deriving DecidableEq, Repr

/-- Modelled from the spec: the Operation record of §3 — phase, the
provider-assigned `externalRef`, the consecutive-transient-failure counter
`attempt`, the retained `lastError` classification and the `result`. -/
structure Operation where
  phase : Phase
  externalRef : Option String
  attempt : Nat
  lastError : Option ErrorClass
  result : Option String
deriving DecidableEq, Repr

/-- Modelled from the spec: outcome of a `ProviderClient.start` call (§4.2):
an immediate terminal result, an external job reference, a terminal provider
rejection, or a transient client error. -/
inductive StartOutcome where
  | immediate (r : String)
  | externalRef (e : String)
  | terminalErr
  | transientErr
deriving DecidableEq, Repr

/-- Modelled from the spec: outcome of a `ProviderClient.poll` call (§4.2):
not done yet, done with a raw result, done with a provider error, or a
transient client error. -/
inductive PollOutcome where
  | notDone
  | doneSuccess (raw : String)
  | doneError
  | transientErr
deriving DecidableEq, Repr

/-- Modelled from the spec: the events the Operation State Machine reacts to
(§4.3): a submission outcome, the act of issuing the first poll after
`Submitted` (which checkpoints `Polling` before the call), a poll outcome, and
a cancel request. -/
inductive Event where
  | start (o : StartOutcome)
  | firstPoll
  | poll (o : PollOutcome)
  | cancel
deriving DecidableEq, Repr

/-- Modelled from the spec: `Succeeded`, `Failed` and `Cancelled` are the
terminal phases (§4.3). -/
def Phase.isTerminal : Phase → Bool
  | .Succeeded => true
  | .Failed => true
  | .Cancelled => true
  | _ => false

/-- Modelled from the spec: one transition of the Operation State Machine
(§4.3). `maxA` is the externally configured maximum attempt count. Terminal
phases ignore every event; a cancel request moves any non-terminal phase to
`Cancelled`; submission outcomes apply only in `Created`; the first poll moves
`Submitted` to `Polling`; poll outcomes apply only in `Polling`. A successful
submission or poll response resets `attempt` to zero; a transient error
increments it, or fails with `ExhaustedRetries` once the bound is passed. -/
def step (maxA : Nat) (op : Operation) (ev : Event) : Operation :=
  if op.phase.isTerminal then op
  else
    match ev with
    | .cancel => { op with phase := .Cancelled }
    | .start o =>
      match op.phase, o with
      | .Created, .immediate r =>
        { op with phase := .Succeeded, result := some r, attempt := 0 }
      | .Created, .externalRef e =>
        { op with phase := .Submitted, externalRef := some e, attempt := 0 }
      | .Created, .terminalErr =>
        { op with phase := .Failed, lastError := some .TerminalProviderError }
      | .Created, .transientErr =>
        if op.attempt + 1 > maxA then
          { op with phase := .Failed, lastError := some .ExhaustedRetries }
        else
          { op with attempt := op.attempt + 1, lastError := some .TransientProviderError }
      | _, _ => op
    | .firstPoll =>
      match op.phase with
      | .Submitted => { op with phase := .Polling }
      | _ => op
    | .poll o =>
      match op.phase, o with
      | .Polling, .notDone => { op with attempt := 0 }
      | .Polling, .doneSuccess raw =>
        { op with phase := .Succeeded, result := some raw, attempt := 0 }
      | .Polling, .doneError =>
        { op with phase := .Failed, lastError := some .TerminalProviderError, attempt := 0 }
      | .Polling, .transientErr =>
        if op.attempt + 1 > maxA then
          { op with phase := .Failed, lastError := some .ExhaustedRetries }
        else
          { op with attempt := op.attempt + 1, lastError := some .TransientProviderError }
      | _, _ => op

/-- Modelled from the spec: a freshly accepted Operation (§3 lifecycle):
phase `Created`, no external reference, no attempts, no error, no result. -/
def initOp : Operation := ⟨.Created, none, 0, none, none⟩

/-- Run the state machine over a sequence of observed events. -/
def run (maxA : Nat) (op : Operation) (evs : List Event) : Operation :=
  evs.foldl (step maxA) op

/-- An Operation state the machine can actually reach from a fresh record. -/
def Reachable (maxA : Nat) (op : Operation) : Prop :=
  ∃ evs, run maxA initOp evs = op

/-- Modelled from the spec: the transition graph of §4.3, as a relation on
phases (an edge for each listed arrow; the self-loops appear both here and as
the reflexive case of the monotonicity statement). -/
def PhaseEdge (p q : Phase) : Prop :=
  (p = .Created ∧ q = .Succeeded) ∨
  (p = .Created ∧ q = .Submitted) ∨
  (p = .Created ∧ q = .Failed) ∨
  (p = .Submitted ∧ q = .Polling) ∨
  (p = .Polling ∧ q = .Polling) ∨
  (p = .Polling ∧ q = .Succeeded) ∨
  (p = .Polling ∧ q = .Failed) ∨
  (p.isTerminal = false ∧ q = .Cancelled)

theorem step_terminal (m : Nat) (op : Operation) (ev : Event)
    (h : op.phase.isTerminal = true) : step m op ev = op := by
  simp [step, h]

theorem step_phase_created (m : Nat) (op : Operation) (ev : Event)
    (h : (step m op ev).phase = .Created) : op.phase = .Created := by
  unfold step at h
  repeat' split at h
  all_goals simp_all

theorem step_edge (m : Nat) (op : Operation) (ev : Event) :
    (step m op ev).phase = op.phase ∨ PhaseEdge op.phase ((step m op ev).phase) := by
  unfold step
  repeat' split
  all_goals simp_all [PhaseEdge, Phase.isTerminal]

theorem step_ref_cases (m : Nat) (op : Operation) (ev : Event) :
    (step m op ev).externalRef = op.externalRef ∨
    (op.phase = .Created ∧ (step m op ev).phase = .Submitted) := by
  unfold step
  repeat' split
  all_goals simp_all

theorem step_start_nonCreated (m : Nat) (op : Operation) (o : StartOutcome)
    (h : op.phase ≠ .Created) : step m op (.start o) = op := by
  unfold step
  repeat' split
  all_goals simp_all

/-- The combined reachability invariant of §3: a `Created` record has no
external reference; the result is present exactly in `Succeeded`; the attempt
counter stays within the configured bound. -/
def OpInv (m : Nat) (op : Operation) : Prop :=
  (op.phase = .Created → op.externalRef = none) ∧
  (op.result.isSome ↔ op.phase = .Succeeded) ∧
  op.attempt ≤ m

theorem inv_init (m : Nat) : OpInv m initOp := by
  refine ⟨fun _ => rfl, ?_, Nat.zero_le m⟩
  simp [initOp]

theorem inv_step (m : Nat) (op : Operation) (ev : Event) (h : OpInv m op) :
    OpInv m (step m op ev) := by
  obtain ⟨h1, h2, h3⟩ := h
  unfold OpInv step
  repeat' split
  all_goals refine ⟨?_, ?_, ?_⟩
  all_goals simp_all
  all_goals
    first
    | omega
    | (intro hs
       simp [hs, Phase.isTerminal] at *)

theorem inv_run (m : Nat) : ∀ (evs : List Event) (op : Operation),
    OpInv m op → OpInv m (run m op evs) := by
  intro evs
  induction evs with
  | nil => intro op h; exact h
  | cons ev evs ih =>
    intro op h
    exact ih (step m op ev) (inv_step m op ev h)

theorem inv_reachable (m : Nat) (op : Operation) (h : Reachable m op) : OpInv m op := by
  obtain ⟨evs, hrun⟩ := h
  rw [← hrun]
  exact inv_run m evs initOp (inv_init m)

/-- The sequence of phases a reader of the Checkpoint Store observes along a
run: every phase transition is checkpointed (§4.3), so the observation is the
scan of `step` over the events, projected to the phase. -/
def observedPhases (m : Nat) (op : Operation) (evs : List Event) : List Phase :=
  (evs.scanl (step m) op).map Operation.phase

theorem observedPhases_nil (m : Nat) (op : Operation) :
    observedPhases m op [] = [op.phase] := by
  simp [observedPhases]

theorem observedPhases_cons (m : Nat) (op : Operation) (ev : Event) (evs : List Event) :
    observedPhases m op (ev :: evs) = op.phase :: observedPhases m (step m op ev) evs := by
  simp [observedPhases, List.scanl_cons]

theorem observedPhases_head (m : Nat) (op : Operation) (evs : List Event) :
    (observedPhases m op evs).head? = some op.phase := by
  cases evs with
  | nil => simp [observedPhases_nil]
  | cons ev evs => simp [observedPhases_cons]

theorem chain_observedPhases (m : Nat) :
    ∀ (evs : List Event) (op : Operation),
      List.Chain' (fun p q => p = q ∨ PhaseEdge p q) (observedPhases m op evs) := by
  intro evs
  induction evs with
  | nil => intro op; simp [observedPhases_nil]
  | cons ev evs ih =>
    intro op
    rw [observedPhases_cons, List.chain'_cons']
    refine ⟨?_, ih (step m op ev)⟩
    intro y hy
    rw [observedPhases_head] at hy
    simp only [Option.mem_def, Option.some.injEq] at hy
    subst hy
    rcases step_edge m op ev with h | h
    · exact Or.inl h.symm
    · exact Or.inr h

/-- C2: along every execution from a fresh Operation, the phase sequence any
reader of the Checkpoint Store observes follows the transition graph of §4.3
(each consecutive pair is equal or an edge, so no phase is skipped), and no
transition ever reaches `Created` from another phase. -/
theorem phase_monotonic (m : Nat) (evs : List Event) :
    List.Chain' (fun p q => p = q ∨ PhaseEdge p q) (observedPhases m initOp evs) ∧
    (∀ op ev, (step m op ev).phase = .Created → op.phase = .Created) :=
  ⟨chain_observedPhases m evs initOp, fun op ev h => step_phase_created m op ev h⟩

/-- Modelled from the spec: the network call the poll-loop driver issues for a
checkpointed state (§4.3): submission from `Created`, a poll with the stored
`externalRef` from `Submitted`/`Polling`, nothing in a terminal phase. -/
inductive DriverCall where
  | callStart
  | callPoll (ref : Option String)
  | noCall
deriving DecidableEq, Repr

/-- Modelled from the spec (§4.3, §4.2): which call the driver issues in a
given state. -/
def driverCall (op : Operation) : DriverCall :=
  match op.phase with
  | .Created => .callStart
  | .Submitted => .callPoll op.externalRef
  | .Polling => .callPoll op.externalRef
  | _ => .noCall

/-- Modelled from the spec: the resumption procedure on restart (§4.3): read
the record by id; `Created` re-runs submission; `Submitted` and `Polling`
re-enter `Polling` with the stored `externalRef`; terminal phases return the
stored outcome unchanged. -/
def resumeOp (op : Operation) : Operation :=
  match op.phase with
  | .Submitted => { op with phase := .Polling }
  | _ => op

/-- Number of `start` calls the driver issues along a run: one for each state
whose driver action is a submission. -/
def startCalls (m : Nat) (op : Operation) (evs : List Event) : Nat :=
  ((evs.scanl (step m) op).filter (fun o => driverCall o == DriverCall.callStart)).length

theorem driverCall_callStart_iff (op : Operation) :
    driverCall op = .callStart ↔ op.phase = .Created := by
  unfold driverCall
  cases h : op.phase <;> simp

theorem scanl_no_created (m : Nat) :
    ∀ (evs : List Event) (op : Operation), op.phase ≠ .Created →
      ∀ o ∈ evs.scanl (step m) op, o.phase ≠ .Created := by
  intro evs
  induction evs with
  | nil =>
    intro op h o ho
    simp only [List.scanl_nil, List.mem_singleton] at ho
    subst ho
    exact h
  | cons ev evs ih =>
    intro op h o ho
    simp only [List.scanl_cons, List.singleton_append, List.mem_cons] at ho
    rcases ho with rfl | ho
    · exact h
    · refine ih (step m op ev) ?_ o ho
      intro hcr
      exact h (step_phase_created m op ev hcr)

theorem startCalls_zero (m : Nat) (op : Operation) (h : op.phase ≠ .Created)
    (evs : List Event) : startCalls m op evs = 0 := by
  unfold startCalls
  rw [List.length_eq_zero, List.filter_eq_nil_iff]
  intro o ho
  have hnc := scanl_no_created m evs op h o ho
  simp only [beq_iff_eq]
  intro hcall
  exact hnc ((driverCall_callStart_iff o).mp hcall)

/-- C1: for an Operation checkpointed in `Submitted` or `Polling` with a stored
`externalRef`, the resumption procedure re-enters `Polling`, polls with the
stored reference, and along the entire resumed run the driver never issues a
`start` call again. -/
theorem resumption_never_recalls_start (m : Nat) (op : Operation) (E : String)
    (hp : op.phase = .Submitted ∨ op.phase = .Polling)
    (hr : op.externalRef = some E) :
    (resumeOp op).phase = .Polling ∧
    driverCall (resumeOp op) = .callPoll (some E) ∧
    (∀ evs, startCalls m (resumeOp op) evs = 0) := by
  have hres : (resumeOp op).phase = .Polling ∧ (resumeOp op).externalRef = some E := by
    rcases hp with h | h <;> simp [resumeOp, h, hr]
  refine ⟨hres.1, ?_, ?_⟩
  · unfold driverCall
    rw [hres.1, hres.2]
  · intro evs
    refine startCalls_zero m (resumeOp op) ?_ evs
    rw [hres.1]
    simp

/-- Witness for C1: a concrete Operation checkpointed in `Submitted` with
reference `"job-1"`, resumed under bound 3. -/
theorem resumption_never_recalls_start_witness :
    (resumeOp ⟨.Submitted, some "job-1", 0, none, none⟩).phase = .Polling ∧
    driverCall (resumeOp ⟨.Submitted, some "job-1", 0, none, none⟩) =
      .callPoll (some "job-1") ∧
    (∀ evs, startCalls 3 (resumeOp ⟨.Submitted, some "job-1", 0, none, none⟩) evs = 0) :=
  resumption_never_recalls_start 3 ⟨.Submitted, some "job-1", 0, none, none⟩ "job-1"
    (Or.inl rfl) rfl

/-- C3: on every reachable Operation, an assigned `externalRef` is never
overwritten by any step; it becomes assigned only at the `Created → Submitted`
transition; and a submission outcome is ignored (no re-submission) once the
Operation has left `Created`. -/
theorem externalRef_set_once (m : Nat) (op : Operation) (h : Reachable m op) :
    (∀ e ev, op.externalRef = some e → (step m op ev).externalRef = some e) ∧
    (∀ e ev, op.externalRef = none → (step m op ev).externalRef = some e →
      op.phase = .Created ∧ (step m op ev).phase = .Submitted) ∧
    (∀ o, op.phase ≠ .Created → step m op (.start o) = op) := by
  have hinv := inv_reachable m op h
  refine ⟨?_, ?_, fun o hno => step_start_nonCreated m op o hno⟩
  · intro e ev he
    rcases step_ref_cases m op ev with hsame | ⟨hcr, _⟩
    · rw [hsame, he]
    · rw [hinv.1 hcr] at he
      exact absurd he (by simp)
  · intro e ev h0 hsome
    rcases step_ref_cases m op ev with hsame | hcr
    · rw [hsame, h0] at hsome
      exact absurd hsome (by simp)
    · exact hcr

/-- Witness for C3: the Operation reached by a single successful submission,
under bound 3. -/
theorem externalRef_set_once_witness :
    (∀ e ev, (Operation.mk .Submitted (some "job-1") 0 none none).externalRef = some e →
      (step 3 ⟨.Submitted, some "job-1", 0, none, none⟩ ev).externalRef = some e) ∧
    (∀ e ev, (Operation.mk .Submitted (some "job-1") 0 none none).externalRef = none →
      (step 3 ⟨.Submitted, some "job-1", 0, none, none⟩ ev).externalRef = some e →
      (Operation.mk .Submitted (some "job-1") 0 none none).phase = .Created ∧
      (step 3 ⟨.Submitted, some "job-1", 0, none, none⟩ ev).phase = .Submitted) ∧
    (∀ o, (Operation.mk .Submitted (some "job-1") 0 none none).phase ≠ .Created →
      step 3 ⟨.Submitted, some "job-1", 0, none, none⟩ (.start o) =
        ⟨.Submitted, some "job-1", 0, none, none⟩) :=
  externalRef_set_once 3 ⟨.Submitted, some "job-1", 0, none, none⟩
    ⟨[.start (.externalRef "job-1")], rfl⟩

/-- C4: on every reachable Operation, the result is present exactly when the
phase is `Succeeded`, and once present it is never modified by any step. -/
theorem result_iff_succeeded (m : Nat) (op : Operation) (h : Reachable m op) :
    (op.result.isSome ↔ op.phase = .Succeeded) ∧
    (∀ r ev, op.result = some r → (step m op ev).result = some r) := by
  have hinv := inv_reachable m op h
  refine ⟨hinv.2.1, ?_⟩
  intro r ev hr
  have hsucc : op.phase = .Succeeded := hinv.2.1.mp (by simp [hr])
  have hterm : op.phase.isTerminal = true := by rw [hsucc]; rfl
  rw [step_terminal m op ev hterm, hr]

/-- Witness for C4: the Operation reached by an immediate-result submission. -/
theorem result_iff_succeeded_witness :
    ((Operation.mk .Succeeded none 0 none (some "video-url")).result.isSome ↔
      (Operation.mk .Succeeded none 0 none (some "video-url")).phase = .Succeeded) ∧
    (∀ r ev, (Operation.mk .Succeeded none 0 none (some "video-url")).result = some r →
      (step 5 ⟨.Succeeded, none, 0, none, some "video-url"⟩ ev).result = some r) :=
  result_iff_succeeded 5 ⟨.Succeeded, none, 0, none, some "video-url"⟩
    ⟨[.start (.immediate "video-url")], rfl⟩

/-- C5: on every reachable Operation the attempt counter never exceeds the
configured maximum; once the bound would be passed, a further transient poll
failure moves the Operation to `Failed` with classification `ExhaustedRetries`,
a classification distinct from a provider-originated terminal error. -/
theorem attempt_bounded (m : Nat) (op : Operation) (h : Reachable m op) :
    op.attempt ≤ m ∧
    (op.phase = .Polling → op.attempt + 1 > m →
      step m op (.poll .transientErr) =
        { op with phase := .Failed, lastError := some .ExhaustedRetries }) ∧
    ErrorClass.ExhaustedRetries ≠ ErrorClass.TerminalProviderError := by
  refine ⟨(inv_reachable m op h).2.2, ?_, by simp⟩
  intro hp hover
  simp [step, hp, hover, Phase.isTerminal]

/-- Witness for C5: an Operation polled to the bound `m = 2` by two transient
failures; one more transient failure fails it with `ExhaustedRetries`. -/
theorem attempt_bounded_witness :
    (Operation.mk .Polling (some "j") 2 (some .TransientProviderError) none).attempt ≤ 2 ∧
    ((Operation.mk .Polling (some "j") 2 (some .TransientProviderError) none).phase = .Polling →
      (Operation.mk .Polling (some "j") 2 (some .TransientProviderError) none).attempt + 1 > 2 →
      step 2 ⟨.Polling, some "j", 2, some .TransientProviderError, none⟩ (.poll .transientErr) =
        { Operation.mk .Polling (some "j") 2 (some .TransientProviderError) none with
            phase := .Failed, lastError := some .ExhaustedRetries }) ∧
    ErrorClass.ExhaustedRetries ≠ ErrorClass.TerminalProviderError :=
  attempt_bounded 2 ⟨.Polling, some "j", 2, some .TransientProviderError, none⟩
    ⟨[.start (.externalRef "j"), .firstPoll, .poll .transientErr, .poll .transientErr],
      rfl⟩

/-- Scenario B of §8: submission fails with a transient rate-limit error three
times, then succeeds with `externalRef = "job-2"`. -/
def scenarioB : List Event :=
  [.start .transientErr, .start .transientErr, .start .transientErr,
    .start (.externalRef "job-2")]

/-- Scenario A of §8: submission returns `externalRef = "job-1"`, two polls
return not-done, the third returns done with a video URL. -/
def scenarioA : List Event :=
  [.start (.externalRef "job-1"), .firstPoll, .poll .notDone, .poll .notDone,
    .poll (.doneSuccess "https://video.example/v.mp4")]

/-- C6: every successful poll response — not-done, done-success or
done-with-provider-error — resets the attempt counter to zero; in particular
Scenario B reaches `Submitted` on the fourth attempt with `attempt = 0`
immediately after, and Scenario A terminates in `Succeeded` with the video URL
and `attempt = 0`. -/
theorem attempt_reset_on_success (m : Nat) (op : Operation)
    (hp : op.phase = .Polling) :
    (step m op (.poll .notDone)).attempt = 0 ∧
    (∀ raw, (step m op (.poll (.doneSuccess raw))).attempt = 0) ∧
    (step m op (.poll .doneError)).attempt = 0 ∧
    run 10 initOp scenarioB =
      ⟨.Submitted, some "job-2", 0, some .TransientProviderError, none⟩ ∧
    run 10 initOp scenarioA =
      ⟨.Succeeded, some "job-1", 0, none, some "https://video.example/v.mp4"⟩ := by
  refine ⟨?_, ?_, ?_, by decide, by decide⟩ <;>
    simp [step, hp, Phase.isTerminal]

/-- Witness for C6: a polling Operation with five accumulated transient
failures, bound 9. -/
theorem attempt_reset_on_success_witness :
    (step 9 ⟨.Polling, some "j", 5, none, none⟩ (.poll .notDone)).attempt = 0 ∧
    (∀ raw, (step 9 ⟨.Polling, some "j", 5, none, none⟩
      (.poll (.doneSuccess raw))).attempt = 0) ∧
    (step 9 ⟨.Polling, some "j", 5, none, none⟩ (.poll .doneError)).attempt = 0 ∧
    run 10 initOp scenarioB =
      ⟨.Submitted, some "job-2", 0, some .TransientProviderError, none⟩ ∧
    run 10 initOp scenarioA =
      ⟨.Succeeded, some "job-1", 0, none, some "https://video.example/v.mp4"⟩ :=
  attempt_reset_on_success 9 ⟨.Polling, some "j", 5, none, none⟩ rfl

/-! ## Request translation and result assembly (spec-modelled) -/

/-- Modelled from the spec: a provider capability descriptor (§2, §4.1): the
set of unified request fields the provider declares supported, and the
explicit bidirectional unified-to-provider value-code table. The implementing
Rust translation tables are not under the source tree. -/
structure ProviderDescriptor where
  supportedFields : List String
  codeTable : List (String × String)
deriving DecidableEq, Repr

/-- Forward lookup in the code table: the provider code of a unified value
(first matching entry). -/
def lookupUni : List (String × String) → String → Option String
  | [], _ => none
  | (u, p) :: rest, v => if v = u then some p else lookupUni rest v

/-- Reverse lookup in the code table: the unified value of a provider code
(first matching entry). -/
def lookupProv : List (String × String) → String → Option String
  | [], _ => none
  | (u, p) :: rest, v => if v = p then some u else lookupProv rest v

/-- A unified request or result: a list of named fields with unified values. -/
abbrev UnifiedFields := List (String × String)

/-- Modelled from the spec: the translation error taxonomy relevant to
`translate` (§4.1, §7). -/
inductive TransError where
  | UnsupportedFeature (field : String)
  | ValidationError (field : String)
deriving DecidableEq, Repr

/-- Modelled from the spec (§4.1): `translate(unifiedRequest, descriptor)`
(here `translateRequest`) validates every field against the descriptor's
supported-feature set, failing with `UnsupportedFeature` before any network
call; it maps each value through
the bidirectional code table, failing with `ValidationError` on an unmapped
value, never silently defaulting. Pure. -/
def translateRequest (d : ProviderDescriptor) : UnifiedFields → Except TransError (List (String × String))
  | [] => .ok []
  | (f, v) :: rest =>
    if f ∈ d.supportedFields then
      match lookupUni d.codeTable v with
      | some pv =>
        match translateRequest d rest with
        | .ok tail => .ok ((f, pv) :: tail)
        | .error e => .error e
      | none => .error (.ValidationError f)
    else
      .error (.UnsupportedFeature f)

/-- Modelled from the spec (§4.4): `assemble(raw)` maps a provider result back
to the unified shape through the reverse code table; an unmapped raw field is
dropped, never a hard failure (the function is total). -/
def assemble (d : ProviderDescriptor) (raw : List (String × String)) : UnifiedFields :=
  raw.filterMap (fun fp => (lookupProv d.codeTable fp.2).map (fun u => (fp.1, u)))

theorem lookupUni_mem_snd : ∀ (t : List (String × String)) (v p : String),
    lookupUni t v = some p → p ∈ t.map Prod.snd := by
  intro t
  induction t with
  | nil => intro v p h; simp [lookupUni] at h
  | cons hd rest ih =>
    intro v p h
    rcases hd with ⟨u0, p0⟩
    by_cases hv : v = u0
    · simp [lookupUni, hv] at h
      simp [h]
    · simp only [lookupUni, if_neg hv] at h
      simp [ih v p h]

theorem lookupUni_then_lookupProv : ∀ (t : List (String × String)) (v p : String),
    (t.map Prod.snd).Nodup → lookupUni t v = some p → lookupProv t p = some v := by
  intro t
  induction t with
  | nil => intro v p _ h; simp [lookupUni] at h
  | cons hd rest ih =>
    intro v p hnd h
    rcases hd with ⟨u0, p0⟩
    simp only [List.map_cons, List.nodup_cons] at hnd
    by_cases hv : v = u0
    · simp only [lookupUni, if_pos hv] at h
      injection h with hp
      subst hp
      simp [lookupProv, hv]
    · simp only [lookupUni, if_neg hv] at h
      have hmem := lookupUni_mem_snd rest v p h
      have hne : p ≠ p0 := fun he => hnd.1 (he ▸ hmem)
      simp [lookupProv, hne, ih v p hnd.2 h]

theorem translate_assemble_roundtrip (d : ProviderDescriptor)
    (hbi : (d.codeTable.map Prod.snd).Nodup) :
    ∀ (req : UnifiedFields) (payload : List (String × String)),
      translateRequest d req = .ok payload → assemble d payload = req := by
  intro req
  induction req with
  | nil =>
    intro payload h
    simp only [translateRequest, Except.ok.injEq] at h
    simp [← h, assemble]
  | cons fv rest ih =>
    intro payload h
    rcases fv with ⟨f, v⟩
    by_cases hf : f ∈ d.supportedFields
    · simp only [translateRequest, if_pos hf] at h
      cases hlu : lookupUni d.codeTable v with
      | none => rw [hlu] at h; simp at h
      | some pv =>
        rw [hlu] at h
        cases htr : translateRequest d rest with
        | error e => rw [htr] at h; simp at h
        | ok tail =>
          rw [htr] at h
          simp only [Except.ok.injEq] at h
          subst h
          have hrev := lookupUni_then_lookupProv d.codeTable v pv hbi hlu
          have htail := ih tail htr
          simp only [assemble, List.filterMap_cons, hrev, Option.map_some'] at htail ⊢
          rw [htail]
    · simp [translateRequest, hf] at h

/-- C7: for a descriptor whose code table is bidirectional (no two unified
values share a provider code), translating a unified request that only uses
supported fields and then assembling the provider payload that exactly matches
the translator's output reproduces the unified request with no field loss:
`assemble` inverts the translator's output mapping. -/
theorem translation_roundtrip (d : ProviderDescriptor) (req : UnifiedFields)
    (payload : List (String × String))
    (hbi : (d.codeTable.map Prod.snd).Nodup)
    (htr : translateRequest d req = .ok payload) :
    assemble d payload = req :=
  translate_assemble_roundtrip d hbi req payload htr

/-- Witness for C7: a two-field descriptor with a two-entry code table. -/
theorem translation_roundtrip_witness :
    assemble ⟨["model", "lang"], [("en", "EN-US"), ("fr", "FR")]⟩
        [("model", "EN-US"), ("lang", "FR")] =
      [("model", "en"), ("lang", "fr")] :=
  translation_roundtrip ⟨["model", "lang"], [("en", "EN-US"), ("fr", "FR")]⟩
    [("model", "en"), ("lang", "fr")] [("model", "EN-US"), ("lang", "FR")]
    (by decide) rfl

/-! ## Paginated result streaming (spec-modelled) -/

/-- Modelled from the spec (§4.2): the response of a `fetchPage(cursor)` call:
the page's items and the optional next cursor. -/
structure PageResp where
  items : List String
  nextCursor : Option String
deriving DecidableEq, Repr

/-- Modelled from the spec (§4.4): the state of a lazy paginated stream: the
cursor of the next page to fetch (`none` once exhausted), plus the log of
cursors already passed to `fetchPage` (each logged cursor is consumed and, per
§4.4, the stream is not restartable across it). -/
structure StreamState where
  cursor : Option String
  fetchLog : List String
deriving DecidableEq, Repr

/-- Modelled from the spec (§6, §4.4): `streamNext` yields the next unified
chunk by fetching the current cursor, or signals end of stream with `none`
when the provider reported no next cursor. -/
def streamNext (fetchPage : String → PageResp) (st : StreamState) :
    Option (List String) × StreamState :=
  match st.cursor with
  | none => (none, st)
  | some c =>
    let page := fetchPage c
    (some page.items, ⟨page.nextCursor, st.fetchLog ++ [c]⟩)

/-- Iterate `streamNext` up to `n` times, collecting the yielded chunks and
stopping at the end-of-stream signal. -/
def streamRun (fetchPage : String → PageResp) : Nat → StreamState → List (List String) × StreamState
  | 0, st => ([], st)
  | n + 1, st =>
    match streamNext fetchPage st with
    | (none, st2) => ([], st2)
    | (some chunk, st2) =>
      let r := streamRun fetchPage n st2
      (chunk :: r.1, r.2)

/-- The chain of cursors the provider reports, starting from an optional
cursor, cut off at `n` fetches. -/
def cursorChain (fetchPage : String → PageResp) : Nat → Option String → List String
  | 0, _ => []
  | _ + 1, none => []
  | n + 1, some c => c :: cursorChain fetchPage n (fetchPage c).nextCursor

/-- Whether the provider stops reporting a `nextCursor` within `n` fetches of
the given cursor. -/
def reachesEnd (fetchPage : String → PageResp) : Nat → Option String → Bool
  | _, none => true
  | 0, some _ => false
  | n + 1, some c => reachesEnd fetchPage n (fetchPage c).nextCursor

theorem streamRun_chain (fetchPage : String → PageResp) :
    ∀ (n : Nat) (cur : Option String) (log : List String),
      reachesEnd fetchPage n cur = true →
      (streamRun fetchPage n ⟨cur, log⟩).2.cursor = none ∧
      (streamRun fetchPage n ⟨cur, log⟩).2.fetchLog = log ++ cursorChain fetchPage n cur ∧
      (streamRun fetchPage n ⟨cur, log⟩).1.length = (cursorChain fetchPage n cur).length := by
  intro n
  induction n with
  | zero =>
    intro cur log h
    cases cur with
    | none => simp [streamRun, cursorChain]
    | some c => simp [reachesEnd] at h
  | succ n ih =>
    intro cur log h
    cases cur with
    | none => simp [streamRun, streamNext, cursorChain]
    | some c =>
      have hr : reachesEnd fetchPage n (fetchPage c).nextCursor = true := h
      have hrec := ih (fetchPage c).nextCursor (log ++ [c]) hr
      simp only [streamRun, streamNext]
      refine ⟨hrec.1, ?_, ?_⟩
      · rw [hrec.2.1]
        simp [cursorChain]
      · simp [cursorChain, hrec.2.2]

/-- Scenario C of §8: the provider reports `nextCursor` values `c1`, then `c2`,
then none. The initial response carries cursor `c1`; fetching `c1` yields chunk
`["r1"]` and cursor `c2`; fetching `c2` yields chunk `["r2"]` and no cursor. -/
def scenarioFetch : String → PageResp := fun c =>
  if c = "c1" then ⟨["r1"], some "c2"⟩
  else if c = "c2" then ⟨["r2"], none⟩
  else ⟨[], none⟩

/-- C8: when the provider stops reporting a `nextCursor` within `n` fetches,
the produced sequence is finite: the cursor is exhausted, a further
`streamNext` signals end of stream, exactly one chunk is yielded per cursor of
the chain, and the fetch log is exactly the cursor chain — so no consumed
cursor is ever re-issued (a duplicate-free chain gives a duplicate-free log).
In Scenario C, `streamNext` yields exactly two chunks and then signals end,
having fetched `c1` exactly once. -/
theorem stream_pagination (fetch : String → PageResp) (c0 : String) (n : Nat)
    (hend : reachesEnd fetch n (some c0) = true) :
    (streamRun fetch n ⟨some c0, []⟩).2.cursor = none ∧
    (streamRun fetch n ⟨some c0, []⟩).2.fetchLog = cursorChain fetch n (some c0) ∧
    (streamRun fetch n ⟨some c0, []⟩).1.length =
      (cursorChain fetch n (some c0)).length ∧
    (streamNext fetch (streamRun fetch n ⟨some c0, []⟩).2).1 = none ∧
    ((cursorChain fetch n (some c0)).Nodup →
      (streamRun fetch n ⟨some c0, []⟩).2.fetchLog.Nodup) ∧
    (streamRun scenarioFetch 3 ⟨some "c1", []⟩ =
        ([["r1"], ["r2"]], ⟨none, ["c1", "c2"]⟩) ∧
      (streamRun scenarioFetch 3 ⟨some "c1", []⟩).2.fetchLog.count "c1" = 1) := by
  have hs := streamRun_chain fetch n (some c0) [] hend
  have hlog : (streamRun fetch n ⟨some c0, []⟩).2.fetchLog =
      cursorChain fetch n (some c0) := by
    rw [hs.2.1]
    simp
  refine ⟨hs.1, hlog, hs.2.2, ?_, ?_, by decide, by decide⟩
  · simp [streamNext, hs.1]
  · intro hnd
    rw [hlog]
    exact hnd

/-- Witness for C8: the Scenario C provider, starting from cursor `c1`, whose
chain ends within two fetches. -/
theorem stream_pagination_witness :
    (streamRun scenarioFetch 2 ⟨some "c1", []⟩).2.cursor = none ∧
    (streamRun scenarioFetch 2 ⟨some "c1", []⟩).2.fetchLog =
      cursorChain scenarioFetch 2 (some "c1") ∧
    (streamRun scenarioFetch 2 ⟨some "c1", []⟩).1.length =
      (cursorChain scenarioFetch 2 (some "c1")).length ∧
    (streamNext scenarioFetch (streamRun scenarioFetch 2 ⟨some "c1", []⟩).2).1 = none ∧
    ((cursorChain scenarioFetch 2 (some "c1")).Nodup →
      (streamRun scenarioFetch 2 ⟨some "c1", []⟩).2.fetchLog.Nodup) ∧
    (streamRun scenarioFetch 3 ⟨some "c1", []⟩ =
        ([["r1"], ["r2"]], ⟨none, ["c1", "c2"]⟩) ∧
      (streamRun scenarioFetch 3 ⟨some "c1", []⟩).2.fetchLog.count "c1" = 1) :=
  stream_pagination scenarioFetch "c1" 2 (by decide)
